import Mathlib

/-!
Verification development for the Keithley-2182 / Kelvinion resistance
measurement system (files `controller.py` and `measure_core.py`).

The Python code is shallowly embedded: Python floats are modelled as exact
rationals (`ℚ`), plus an explicit `PFloat` type when the IEEE special values
`nan` and `inf` matter; Python lists become `List`; dict iteration order
becomes an explicit ordered association list; the instrument transport is
modelled by traces of write events; real time (for the stabilization waits)
is modelled in discrete 0.2 s slices, the granularity of
`interruptible_sleep`.
-/

/-- Model of a Python float value where the IEEE special values matter.
`nan` is produced by failed response parses (`float('nan')` in
`read_temperatures`), `inf` by the division guard in
`measure_single_channel`. -/
inductive PFloat
  | nan
  | inf
  | val (q : ℚ)
deriving DecidableEq, Repr

/-- Embedding of the in-tolerance test of `wait_for_stable`
(`measure_core.py` lines 247 and 262): `t - target < tol and target - t < tol`.
In IEEE arithmetic `nan - target` is `nan` and every comparison with `nan` is
false, so a `nan` reading fails the test; `+inf - target` is `+inf` and
`+inf < tol` is false, so `+inf` fails it as well.  Both non-`val` cases
therefore yield `false`. -/
def stable_check (target tol : ℚ) : PFloat → Bool
  | .val t => decide (t - target < tol) && decide (target - t < tol)
  | .nan => false
  | .inf => false

/-- Embedding of the fallback parse in `read_temperatures`
(`measure_core.py` lines 184-190): the slice parse `float(raw[1:-3])` is
tried first, then the full parse `float(raw)`, and if both raise the reading
is `float('nan')`.  The two `Option ℚ` arguments are the outcomes of the two
parse attempts (`none` = the parse raised). -/
def parse_reading (slice_parse full_parse : Option ℚ) : PFloat :=
  match slice_parse with
  | some q => .val q
  | none =>
    match full_parse with
    | some q => .val q
    | none => .nan

/-- One temperature block of the sweep sequence, as handed to
`MeasurementWorker` by `get_sequence_data` (`gui.py`): the `start`/`stop`/
`step` fields are strings that `_generate_temps_for_block` parses with
`float(...)`; a field whose parse raises (non-numeric or missing) is
modelled as `none`.  The `ramp` field is never read by the worker and is
omitted. -/
structure TempBlock where
  start : Option ℚ
  stop : Option ℚ
  step : Option ℚ
  endFlag : Bool
deriving DecidableEq, Repr

/-- Embedding of `np.isclose` with its default tolerances
(`rtol = 1e-5`, `atol = 1e-8`): `|a - b| <= atol + rtol * |b|`. -/
def npIsClose (a b : ℚ) : Bool :=
  decide (|a - b| ≤ 1 / 100000000 + |b| / 100000)

/-- Embedding of `np.arange(start, stop, step)` in exact arithmetic: the
points `start + i * step` for `0 ≤ i < ⌈(stop - start) / step⌉`. -/
def npArange (start_temp stop_temp stp : ℚ) : List ℚ :=
  (List.range (Int.ceil ((stop_temp - start_temp) / stp)).toNat).map
    (fun i : ℕ => start_temp + (i : ℚ) * stp)

/-- Embedding of `MeasurementWorker._generate_temps_for_block`
(`controller.py` lines 43-68).  A failed field parse returns `[]`;
`step == 0` yields the single point `start`; otherwise the step sign is
forced toward `stop`, `np.arange` generates the points, and `stop` is
appended when the sequence is empty or its last point is not `np.isclose`
to `stop` and the direction test passes. -/
def generate_temps_for_block (b : TempBlock) : List ℚ :=
  match b.start, b.stop, b.step with
  | some start_temp, some stop_temp, some step_val =>
    if step_val = 0 then [start_temp]
    else
      let stp := if start_temp > stop_temp then -|step_val| else |step_val|
      let points := npArange start_temp stop_temp stp
      let needStop : Bool :=
        match points.getLast? with
        | none => true
        | some last => ¬ npIsClose last stop_temp
      if needStop then
        if (0 < stp ∧ start_temp ≤ stop_temp) ∨ (stp < 0 ∧ stop_temp ≤ start_temp) then
          points ++ [stop_temp]
        else points
      else points
  | _, _, _ => []

/-- Definition following the words of claim C1 (spec §4.2): closeness to
`stop` "within ~1e-9 relative floating tolerance", i.e.
`|a - b| ≤ 1e-9 * |b|`.  Stated for comparison with `npIsClose`, the
tolerance the source actually uses. -/
def claim_isclose_rel9 (a b : ℚ) : Bool :=
  decide (|a - b| ≤ |b| / 1000000000)

lemma npArange_getElem (a o s : ℚ) (i : ℕ) (hi : i < (npArange a o s).length) :
    (npArange a o s)[i]? = some (a + i * s) := by
  unfold npArange at hi ⊢
  rw [List.getElem?_map]
  rw [List.length_map, List.length_range] at hi
  rw [List.getElem?_range hi]
  rfl

lemma npArange_ne_nil (a o s : ℚ) (h : 0 < (o - a) / s) : npArange a o s ≠ [] := by
  unfold npArange
  rw [Ne, List.map_eq_nil_iff, List.range_eq_nil]
  have : 0 < Int.ceil ((o - a) / s) := Int.ceil_pos.mpr h
  omega

lemma npArange_head (a o s : ℚ) (h : npArange a o s ≠ []) :
    (npArange a o s).head? = some a := by
  have hl : 0 < (npArange a o s).length := List.length_pos.mpr h
  rw [List.head?_eq_getElem?, npArange_getElem a o s 0 hl]
  norm_num

lemma step_dir (a o s : ℚ) (hs : s ≠ 0) :
    (0 < (if a > o then -|s| else |s|) ∧ a ≤ o) ∨
      ((if a > o then -|s| else |s|) < 0 ∧ o ≤ a) := by
  by_cases h : a > o
  · right
    rw [if_pos h]
    exact ⟨neg_neg_of_pos (abs_pos.mpr hs), le_of_lt h⟩
  · left
    rw [if_neg h]
    exact ⟨abs_pos.mpr hs, le_of_not_lt h⟩

lemma npArange_ne_nil_of_ne (a o s : ℚ) (hs : s ≠ 0) (hao : a ≠ o) :
    npArange a o (if a > o then -|s| else |s|) ≠ [] := by
  apply npArange_ne_nil
  rcases step_dir a o s hs with ⟨h1, h2⟩ | ⟨h1, h2⟩
  · exact div_pos (by cases lt_or_eq_of_le h2 with
      | inl h => linarith
      | inr h => exact absurd h hao) h1
  · rw [div_pos_iff]
    right
    constructor
    · cases lt_or_eq_of_le h2 with
      | inl h => linarith
      | inr h => exact absurd h.symm hao
    · exact h1

lemma npIsClose_self (o : ℚ) : npIsClose o o = true := by
  unfold npIsClose
  rw [decide_eq_true_iff]
  rw [sub_self, abs_zero]
  positivity

/-- Claim C1 amended: for every block with numeric fields and `step ≠ 0`,
the expansion is nonempty, starts at `start`, advances from `start` by
`|step|` with the sign forced to match the direction toward `stop` (the
generated positions are `start + i * step'`), and its final element equals
`stop` within numpy's default `isclose` tolerance (1e-5 relative plus 1e-8
absolute); `stop` is appended as an exact final point whenever the last
generated point is not within that tolerance.  The claim's "~1e-9 relative"
tolerance does not hold — see the counterexample — so it is amended to the
numpy default the source actually uses. -/
theorem c1_amended (a o s : ℚ) (e : Bool) (hs : s ≠ 0) :
    generate_temps_for_block ⟨some a, some o, some s, e⟩ ≠ [] ∧
    (generate_temps_for_block ⟨some a, some o, some s, e⟩).head? = some a ∧
    (∃ last, (generate_temps_for_block ⟨some a, some o, some s, e⟩).getLast? = some last ∧
      npIsClose last o = true) ∧
    (a < o → 0 < (if a > o then -|s| else |s|)) ∧
    (o < a → (if a > o then -|s| else |s|) < 0) ∧
    (∀ i : ℕ, i < (npArange a o (if a > o then -|s| else |s|)).length →
      (generate_temps_for_block ⟨some a, some o, some s, e⟩)[i]? =
        some (a + (i : ℚ) * (if a > o then -|s| else |s|))) := by
  have hdir := step_dir a o s hs
  have hsign1 : a < o → 0 < (if a > o then -|s| else |s|) := by
    intro h
    rcases hdir with ⟨h1, _⟩ | ⟨_, h2⟩
    · exact h1
    · linarith
  have hsign2 : o < a → (if a > o then -|s| else |s|) < 0 := by
    intro h
    rcases hdir with ⟨_, h2⟩ | ⟨h1, _⟩
    · linarith
    · exact h1
  set stp := if a > o then -|s| else |s| with hstp
  set pts := npArange a o stp with hpts
  have hgen : generate_temps_for_block ⟨some a, some o, some s, e⟩ =
      (if (match pts.getLast? with
            | none => true
            | some last => ¬ npIsClose last o) = true
       then pts ++ [o] else pts) := by
    show (if s = 0 then [a] else _) = _
    rw [if_neg hs]
    simp only [← hstp, ← hpts]
    rcases hdir with h | h
    · rw [if_pos (Or.inl h)]
    · rw [if_pos (Or.inr h)]
  refine ⟨?_, ?_, ?_, hsign1, hsign2, ?_⟩
  · rw [hgen]
    rcases hl : pts.getLast? with - | last
    · simp
    · by_cases hc : npIsClose last o
      · simp only [hc]
        norm_num
        intro hnil
        rw [hnil] at hl
        simp at hl
      · simp only [hc]
        norm_num
  · rw [hgen]
    rcases hl : pts.getLast? with - | last
    · have hnil : pts = [] := by
        rcases hx : pts with - | ⟨x, xs⟩
        · rfl
        · rw [hx] at hl
          simp at hl
      have hao : a = o := by
        by_contra hao
        exact npArange_ne_nil_of_ne a o s hs hao hnil
      norm_num
      rw [hnil]
      simp [hao]
    · have hne : pts ≠ [] := by
        intro hnil
        rw [hnil] at hl
        simp at hl
      have hhead : pts.head? = some a := npArange_head a o stp hne
      by_cases hc : npIsClose last o
      · simp only [hc]
        norm_num
        exact hhead
      · simp only [hc]
        norm_num
        exact Or.inl hhead
  · rw [hgen]
    rcases hl : pts.getLast? with - | last
    · refine ⟨o, ?_, npIsClose_self o⟩
      norm_num
    · by_cases hc : npIsClose last o
      · refine ⟨last, ?_, by simpa using hc⟩
        simp only [hc]
        norm_num
        exact hl
      · refine ⟨o, ?_, npIsClose_self o⟩
        simp only [hc]
        norm_num
  · intro i hi
    rw [hgen]
    rcases hl : pts.getLast? with - | last
    · have hnil : pts = [] := by
        rcases hx : pts with - | ⟨x, xs⟩
        · rfl
        · rw [hx] at hl
          simp at hl
      rw [hnil] at hi
      simp at hi
    · by_cases hc : npIsClose last o
      · simp only [hc]
        norm_num
        exact npArange_getElem a o stp i hi
      · simp only [hc]
        norm_num
        rw [List.getElem?_append_left hi]
        exact npArange_getElem a o stp i hi

lemma npArange_near_one : npArange 0 1 (9999999/10000000) = [0, 9999999/10000000] := by
  have h : (Int.ceil ((1 - 0 : ℚ) / (9999999/10000000))).toNat = 2 := by
    rw [show ((1 - 0 : ℚ) / (9999999/10000000)) = 10000000/9999999 by norm_num]
    rw [show Int.ceil ((10000000:ℚ)/9999999) = 2 by
      rw [Int.ceil_eq_iff]
      norm_num]
    rfl
  unfold npArange
  rw [h]
  simp only [List.range_succ, List.range_zero, List.map_append, List.map_cons,
    List.map_nil, List.nil_append, List.cons_append, Nat.cast_ofNat]
  norm_num

lemma npIsClose_near_one : npIsClose (9999999/10000000) 1 = true := by
  unfold npIsClose
  rw [decide_eq_true_iff]
  rw [show |(9999999/10000000 : ℚ) - 1| = 1/10000000 by rw [abs_of_neg] <;> norm_num]
  norm_num

theorem c1_counterexample :
    generate_temps_for_block ⟨some 0, some 1, some (9999999/10000000), false⟩ =
      [0, 9999999/10000000] ∧
    claim_isclose_rel9 (9999999/10000000) 1 = false := by
  constructor
  · simp only [generate_temps_for_block]
    rw [if_neg (by norm_num : ¬(9999999/10000000 : ℚ) = 0)]
    rw [show (if (0:ℚ) > 1 then -|(9999999/10000000 : ℚ)| else |(9999999/10000000 : ℚ)|) =
        9999999/10000000 by
      rw [if_neg (by norm_num), abs_of_pos (by norm_num)]]
    rw [npArange_near_one]
    simp [npIsClose_near_one]
  · unfold claim_isclose_rel9
    rw [decide_eq_false_iff_not]
    rw [show |(9999999/10000000 : ℚ) - 1| = 1/10000000 by rw [abs_of_neg] <;> norm_num]
    norm_num

theorem c1_witness :
    generate_temps_for_block ⟨some 300, some 295, some 1, false⟩ ≠ [] ∧
    (generate_temps_for_block ⟨some 300, some 295, some 1, false⟩).head? = some 300 ∧
    (∃ last, (generate_temps_for_block ⟨some 300, some 295, some 1, false⟩).getLast? = some last ∧
      npIsClose last 295 = true) ∧
    generate_temps_for_block ⟨some 300, some 295, some 1, false⟩ =
      [300, 299, 298, 297, 296, 295] := by
  have hmain := c1_amended 300 295 1 false (by norm_num)
  refine ⟨hmain.1, hmain.2.1, hmain.2.2.1, ?_⟩
  have harr : npArange 300 295 (-1) = [300, 299, 298, 297, 296] := by
    have h : (Int.ceil ((295 - 300 : ℚ) / (-1))).toNat = 5 := by
      rw [show ((295 - 300 : ℚ) / (-1)) = 5 by norm_num]
      rfl
    unfold npArange
    rw [h]
    simp only [List.range_succ, List.range_zero, List.map_append, List.map_cons,
      List.map_nil, List.nil_append, List.cons_append, Nat.cast_ofNat]
    norm_num
  have hfar : npIsClose 296 295 = false := by
    unfold npIsClose
    rw [decide_eq_false_iff_not]
    rw [show |(296 : ℚ) - 295| = 1 by norm_num]
    norm_num
  simp only [generate_temps_for_block]
  rw [if_neg (by norm_num : ¬(1 : ℚ) = 0)]
  rw [show (if (300:ℚ) > 295 then -|(1 : ℚ)| else |(1 : ℚ)|) = -1 by
    rw [if_pos (by norm_num), abs_of_pos (by norm_num)]]
  rw [harr]
  simp [hfar]
  norm_num

/-- Embedding of one confirmation-counter update of `wait_for_stable`
(`measure_core.py` lines 262-265): an in-tolerance reading increments
`valid_count`, any other reading resets it to 0. -/
def confirmStep (target tol : ℚ) (count : ℕ) (t : PFloat) : ℕ :=
  if stable_check target tol t then count + 1 else 0

/-- Embedding of the confirmation phase of `wait_for_stable`
(`measure_core.py` lines 254-268) run over a scripted list of successive
sample readings, with cancellation never requested.  Returns `some n` when
the loop exits (`valid_count` reached 6) after consuming `n` readings,
`none` when the script is exhausted first. -/
def confirm_consumed (target tol : ℚ) : ℕ → List PFloat → Option ℕ
  | _, [] => none
  | count, t :: rest =>
    let c := confirmStep target tol count t
    if 6 ≤ c then some 1
    else (confirm_consumed target tol c rest).map (· + 1)

/-- Embedding of the acquisition phase of `wait_for_stable`
(`measure_core.py` lines 240-252) over a scripted list of readings: the
index of the first reading that passes the in-tolerance test (the `break`),
`none` if the script runs out. -/
def acquire_index (target tol : ℚ) : List PFloat → Option ℕ
  | [] => none
  | t :: rest =>
    if stable_check target tol t then some 0
    else (acquire_index target tol rest).map (· + 1)

lemma confirm_consumed_spec (target tol : ℚ) :
    ∀ (rs : List PFloat) (c n : ℕ), c < 6 → confirm_consumed target tol c rs = some n →
      1 ≤ n ∧ n ≤ rs.length ∧
      ((n + c = 6 ∧ ∀ r ∈ rs.take n, stable_check target tol r = true) ∨
       (6 ≤ n ∧ ∀ r ∈ (rs.take n).drop (n - 6), stable_check target tol r = true)) := by
  intro rs
  induction rs with
  | nil => intro c n _ h; simp [confirm_consumed] at h
  | cons t rest ih =>
    intro c n hc h
    rw [confirm_consumed] at h
    by_cases hs : stable_check target tol t
    · simp only [confirmStep, hs, if_true] at h
      by_cases h6 : 6 ≤ c + 1
      · rw [if_pos h6] at h
        have hn : n = 1 := by
          simpa using h.symm
        subst hn
        refine ⟨le_refl 1, by simp, Or.inl ⟨?_, ?_⟩⟩
        · omega
        · intro r hr
          simp at hr
          rw [hr]
          exact hs
      · rw [if_neg h6] at h
        rcases Option.map_eq_some'.mp h with ⟨m, hm, hn⟩
        subst hn
        rcases ih (c + 1) m (by omega) hm with ⟨hm1, hmlen, hcase⟩
        refine ⟨by omega, by simpa using hmlen, ?_⟩
        rcases hcase with ⟨hsum, hall⟩ | ⟨h6m, hlast⟩
        · left
          refine ⟨by omega, ?_⟩
          intro r hr
          rw [List.take_succ_cons] at hr
          rcases List.mem_cons.mp hr with hr | hr
          · rw [hr]; exact hs
          · exact hall r hr
        · right
          refine ⟨by omega, ?_⟩
          intro r hr
          rw [List.take_succ_cons] at hr
          have hdrop : (m + 1) - 6 = (m - 6) + 1 := by omega
          rw [hdrop, List.drop_succ_cons] at hr
          exact hlast r hr
    · simp only [confirmStep, hs, Bool.false_eq_true, if_false] at h
      rw [if_neg (by omega : ¬ 6 ≤ 0)] at h
      rcases Option.map_eq_some'.mp h with ⟨m, hm, hn⟩
      subst hn
      rcases ih 0 m (by omega) hm with ⟨hm1, hmlen, hcase⟩
      refine ⟨by omega, by simpa using hmlen, ?_⟩
      have h6m : 6 ≤ m := by
        rcases hcase with ⟨hsum, -⟩ | ⟨h6m, -⟩
        · omega
        · exact h6m
      right
      refine ⟨by omega, ?_⟩
      have hlast : ∀ r ∈ (rest.take m).drop (m - 6), stable_check target tol r = true := by
        rcases hcase with ⟨hsum, hall⟩ | ⟨-, hlast⟩
        · intro r hr
          exact hall r (List.mem_of_mem_drop hr)
        · exact hlast
      intro r hr
      rw [List.take_succ_cons] at hr
      have hdrop : (m + 1) - 6 = (m - 6) + 1 := by omega
      rw [hdrop, List.drop_succ_cons] at hr
      exact hlast r hr

/-- C2: in the confirmation phase of `wait_for_stable`, any out-of-tolerance
reading resets the consecutive counter to exactly zero, and the phase
completes after consuming `n` readings only if `n ≥ 6` and the last 6
readings consumed were all in tolerance (i.e. only after 6 consecutive
in-tolerance readings). -/
theorem c2_consecutive_confirmations (target tol : ℚ) (rs : List PFloat) (n : ℕ)
    (h : confirm_consumed target tol 0 rs = some n) :
    (∀ (count : ℕ) (t : PFloat), stable_check target tol t = false →
      confirmStep target tol count t = 0) ∧
    6 ≤ n ∧ n ≤ rs.length ∧
    ∀ r ∈ (rs.take n).drop (n - 6), stable_check target tol r = true := by
  rcases confirm_consumed_spec target tol rs 0 n (by omega) h with ⟨h1, hlen, hcase⟩
  refine ⟨fun count t ht => by simp [confirmStep, ht], ?_, hlen, ?_⟩
  · rcases hcase with ⟨hsum, -⟩ | ⟨h6, -⟩
    · omega
    · exact h6
  · rcases hcase with ⟨hsum, hall⟩ | ⟨h6, hlast⟩
    · intro r hr
      have hn6 : n - 6 = 0 := by omega
      rw [hn6, List.drop_zero] at hr
      exact hall r hr
    · exact hlast

/-- C2 witness: the scripted reading sequence
`[in, in, in, in, in, out, in, in, in, in, in, in]` (target 300 K,
tolerance 0.1 K; `in` = 300 K, `out` = 400 K) completes only on the final
reading: 12 readings are consumed and the last 6 are the consecutive
in-tolerance ones. -/
theorem c2_witness :
    confirm_consumed 300 (1/10) 0
      [PFloat.val 300, PFloat.val 300, PFloat.val 300, PFloat.val 300, PFloat.val 300,
       PFloat.val 400, PFloat.val 300, PFloat.val 300, PFloat.val 300, PFloat.val 300,
       PFloat.val 300, PFloat.val 300] = some 12 ∧
    (6 ≤ 12 ∧
      ∀ r ∈ (([PFloat.val 300, PFloat.val 300, PFloat.val 300, PFloat.val 300,
          PFloat.val 300, PFloat.val 400, PFloat.val 300, PFloat.val 300, PFloat.val 300,
          PFloat.val 300, PFloat.val 300, PFloat.val 300].take 12).drop (12 - 6)),
        stable_check 300 (1/10) r = true) := by
  have hrun : confirm_consumed 300 (1/10) 0
      [PFloat.val 300, PFloat.val 300, PFloat.val 300, PFloat.val 300, PFloat.val 300,
       PFloat.val 400, PFloat.val 300, PFloat.val 300, PFloat.val 300, PFloat.val 300,
       PFloat.val 300, PFloat.val 300] = some 12 := by
    norm_num [confirm_consumed, confirmStep, stable_check]
  have hmain := c2_consecutive_confirmations 300 (1/10) _ 12 hrun
  exact ⟨hrun, hmain.2.1, hmain.2.2.2⟩

/-- C10: `wait_for_stable` treats a `nan` sample reading (as produced by a
failed response parse in `read_temperatures`) as out of tolerance: the
in-tolerance test is false on `nan`, so the acquisition phase can only
complete on a parsed (`val`) reading, a `nan` in the confirmation phase
resets the consecutive counter to zero, and on an all-`nan` script neither
phase ever completes. -/
theorem c10_nan_never_stable (target tol : ℚ) :
    stable_check target tol .nan = false ∧
    parse_reading none none = .nan ∧
    (∀ count : ℕ, confirmStep target tol count .nan = 0) ∧
    (∀ (rs : List PFloat) (i : ℕ), acquire_index target tol rs = some i →
      ∃ q : ℚ, rs[i]? = some (.val q) ∧ stable_check target tol (.val q) = true) ∧
    (∀ rs : List PFloat, (∀ r ∈ rs, r = .nan) →
      acquire_index target tol rs = none ∧
      ∀ c : ℕ, confirm_consumed target tol c rs = none) := by
  refine ⟨rfl, rfl, fun count => by simp [confirmStep, stable_check], ?_, ?_⟩
  · intro rs
    induction rs with
    | nil => intro i h; simp [acquire_index] at h
    | cons t rest ih =>
      intro i h
      rw [acquire_index] at h
      by_cases hs : stable_check target tol t
      · rw [if_pos hs] at h
        have hi : i = 0 := by simpa using h.symm
        subst hi
        rcases t with - | - | q
        · simp [stable_check] at hs
        · simp [stable_check] at hs
        · exact ⟨q, by simp, hs⟩
      · rw [if_neg hs] at h
        rcases Option.map_eq_some'.mp h with ⟨m, hm, hi⟩
        subst hi
        rcases ih m hm with ⟨q, hq, hsq⟩
        exact ⟨q, by simpa using hq, hsq⟩
  · intro rs
    induction rs with
    | nil => intro _; exact ⟨rfl, fun c => rfl⟩
    | cons t rest ih =>
      intro hall
      have ht : t = .nan := hall t (by simp)
      have hrest := ih (fun r hr => hall r (by simp [hr]))
      have hst : stable_check target tol t = false := by rw [ht]; rfl
      constructor
      · rw [acquire_index, if_neg (by simp [hst]), hrest.1]
        rfl
      · intro c
        rw [confirm_consumed]
        simp only [confirmStep, hst, Bool.false_eq_true, if_false]
        rw [if_neg (by omega : ¬ 6 ≤ 0), hrest.2 0]
        rfl

/-- C10 witness: with target 300 K and tolerance 0.1 K, a script whose first
reading is `nan` completes acquisition only at the second (parsed, 300 K)
reading, and an all-`nan` script completes neither phase. -/
theorem c10_witness :
    acquire_index 300 (1/10) [PFloat.nan, PFloat.val 300] = some 1 ∧
    (∃ q : ℚ, [PFloat.nan, PFloat.val 300][1]? = some (PFloat.val q) ∧
      stable_check 300 (1/10) (PFloat.val q) = true) ∧
    acquire_index 300 (1/10) [PFloat.nan, PFloat.nan] = none ∧
    confirm_consumed 300 (1/10) 0 [PFloat.nan, PFloat.nan] = none := by
  have h1 : acquire_index 300 (1/10) [PFloat.nan, PFloat.val 300] = some 1 := by
    norm_num [acquire_index, stable_check]
  refine ⟨h1, (c10_nan_never_stable 300 (1/10)).2.2.2.1 _ 1 h1, ?_, ?_⟩
  · exact ((c10_nan_never_stable 300 (1/10)).2.2.2.2 _ (by simp)).1
  · exact ((c10_nan_never_stable 300 (1/10)).2.2.2.2 _ (by simp)).2 0

/-- Embedding of `MeasurementWorker._get_all_target_temps` (`controller.py`
lines 70-78): concatenates each block's expansion and stops after the first
block whose `end` flag is set — even when that block expanded to nothing. -/
def get_all_target_temps : List TempBlock → List ℚ
  | [] => []
  | b :: rest =>
    generate_temps_for_block b ++
      (if b.endFlag then [] else get_all_target_temps rest)

/-- Observable events of the block loop of `MeasurementWorker.run`
(`controller.py` lines 89-134), with `_is_running` held true and the
per-point hardware work abstracted away: `blockChanged i` is
`block_changed.emit(i)`, `skipBlock i` the "Invalid parameters or empty
sequence. Skipping." progress message, `setpoint q` one stabilized
measurement point, and `endReached` the "End of sequence reached (END
checkbox)." message. -/
inductive RunEvent
  | blockChanged (i : ℕ)
  | skipBlock (i : ℕ)
  | setpoint (q : ℚ)
  | endReached
deriving DecidableEq, Repr

/-- Embedding of the block loop of `MeasurementWorker.run` (`controller.py`
lines 89-134): each block emits `blockChanged`; an invalid (empty-expansion)
block emits the skip warning and `continue`s — which skips the `end`-flag
check at the bottom of the loop — and a nonempty block emits its setpoints
and then terminates the run when its `end` flag is set. -/
def run_events : ℕ → List TempBlock → List RunEvent
  | _, [] => []
  | i, b :: rest =>
    RunEvent.blockChanged i ::
      (let pts := generate_temps_for_block b
       if pts.isEmpty then RunEvent.skipBlock i :: run_events (i + 1) rest
       else pts.map RunEvent.setpoint ++
         (if b.endFlag then [RunEvent.endReached] else run_events (i + 1) rest))

/-- Setpoints actually measured by a run of the given sequence, in order. -/
def run_setpoints (seq : List TempBlock) : List ℚ :=
  (run_events 0 seq).filterMap
    (fun e => match e with | RunEvent.setpoint q => some q | _ => none)

lemma filterMap_setpoint_map (l : List ℚ) :
    List.filterMap (fun e => match e with
      | RunEvent.setpoint q => some q
      | _ => none) (l.map RunEvent.setpoint) = l := by
  induction l with
  | nil => rfl
  | cons x xs ih => simp [List.filterMap_cons, ih]

lemma events_filter_setpoints (i : ℕ) (seq : List TempBlock) (b : TempBlock)
    (hb : b.endFlag = true) (hne : generate_temps_for_block b ≠ []) :
    run_events i (b :: seq) =
      RunEvent.blockChanged i ::
        ((generate_temps_for_block b).map RunEvent.setpoint ++ [RunEvent.endReached]) := by
  rw [run_events]
  simp only [List.isEmpty_iff]
  rw [if_neg hne, if_pos hb]

/-- C3 amended: the run evaluates blocks in order, and a block whose end
flag is true and whose expansion is nonempty (every block with numeric
fields expands nonempty) terminates the whole run after its own points:
its events are exactly its setpoints followed by the end-of-sequence
message, and no later block contributes any event or setpoint.  (An invalid
block with `end=true` is instead skipped together with its end flag, see the
counterexample.) -/
theorem c3_amended_end_terminates (i : ℕ) (seq : List TempBlock) (b : TempBlock)
    (hb : b.endFlag = true) (hne : generate_temps_for_block b ≠ []) :
    run_events i (b :: seq) =
      RunEvent.blockChanged i ::
        ((generate_temps_for_block b).map RunEvent.setpoint ++ [RunEvent.endReached]) ∧
    run_setpoints (b :: seq) = generate_temps_for_block b := by
  refine ⟨events_filter_setpoints i seq b hb hne, ?_⟩
  rw [run_setpoints, events_filter_setpoints 0 seq b hb hne]
  rw [List.filterMap_cons]
  simp only [List.filterMap_append]
  rw [filterMap_setpoint_map]
  simp [List.filterMap_cons]

lemma gen_step_zero (a o : ℚ) (e : Bool) :
    generate_temps_for_block ⟨some a, some o, some 0, e⟩ = [a] := by
  simp [generate_temps_for_block]

/-- C3 counterexample: in the two-block sequence whose FIRST block has
`end=true` but an invalid (non-numeric) `start` field, the run skips that
block together with its end flag and goes on to expand and measure the
second block (setpoint 300) — so a block after the first `end=true` block
IS measured, contrary to the claim.  `_get_all_target_temps`, by contrast,
honours the end flag even for the invalid block and predicts no points at
all: the two disagree on this input. -/
theorem c3_counterexample :
    (⟨none, some 297, some 0, true⟩ : TempBlock).endFlag = true ∧
    run_setpoints [⟨none, some 297, some 0, true⟩, ⟨some 300, some 300, some 0, false⟩] =
      [300] ∧
    get_all_target_temps
      [⟨none, some 297, some 0, true⟩, ⟨some 300, some 300, some 0, false⟩] = [] := by
  refine ⟨rfl, ?_, ?_⟩
  · rw [run_setpoints]
    rw [show run_events 0 [⟨none, some 297, some 0, true⟩, ⟨some 300, some 300, some 0, false⟩]
        = [RunEvent.blockChanged 0, RunEvent.skipBlock 0, RunEvent.blockChanged 1,
           RunEvent.setpoint 300] by
      rw [run_events]
      simp only [show generate_temps_for_block ⟨none, some 297, some 0, true⟩ = [] from rfl]
      rw [run_events]
      simp [gen_step_zero, run_events]]
    rfl
  · rw [get_all_target_temps]
    simp [show generate_temps_for_block ⟨none, some 297, some 0, true⟩ = [] from rfl]

lemma gen_300_298 :
    generate_temps_for_block ⟨some 300, some 298, some 1, false⟩ = [300, 299, 298] := by
  have harr : npArange 300 298 (-1) = [300, 299] := by
    have h : (Int.ceil ((298 - 300 : ℚ) / (-1))).toNat = 2 := by
      rw [show ((298 - 300 : ℚ) / (-1)) = 2 by norm_num]
      rfl
    unfold npArange
    rw [h]
    simp only [List.range_succ, List.range_zero, List.map_append, List.map_cons,
      List.map_nil, List.nil_append, List.cons_append, Nat.cast_ofNat]
    norm_num
  have hfar : npIsClose 299 298 = false := by
    unfold npIsClose
    rw [decide_eq_false_iff_not]
    rw [show |(299 : ℚ) - 298| = 1 by norm_num]
    norm_num
  simp only [generate_temps_for_block]
  rw [if_neg (by norm_num : ¬(1 : ℚ) = 0)]
  rw [show (if (300:ℚ) > 298 then -|(1 : ℚ)| else |(1 : ℚ)|) = -1 by
    rw [if_pos (by norm_num), abs_of_pos (by norm_num)]]
  rw [harr]
  simp [hfar]
  norm_num

/-- C3 witness: the two-block sequence
`[{300,298,1,end:false},{297,297,0,end:true}]` produces exactly the four
setpoints 300, 299, 298, 297 and terminates; and (applying the amended
theorem) a valid `end=true` block really does cut off a following block. -/
theorem c3_witness :
    run_setpoints [⟨some 300, some 298, some 1, false⟩, ⟨some 297, some 297, some 0, true⟩] =
      [300, 299, 298, 297] ∧
    run_setpoints [⟨some 297, some 297, some 0, true⟩, ⟨some 100, some 100, some 0, false⟩] =
      [297] := by
  have hend := c3_amended_end_terminates 0 [⟨some 100, some 100, some 0, false⟩]
    ⟨some 297, some 297, some 0, true⟩ rfl (by rw [gen_step_zero]; simp)
  constructor
  · rw [run_setpoints]
    rw [show run_events 0
        [⟨some 300, some 298, some 1, false⟩, ⟨some 297, some 297, some 0, true⟩] =
        [RunEvent.blockChanged 0, RunEvent.setpoint 300, RunEvent.setpoint 299,
         RunEvent.setpoint 298, RunEvent.blockChanged 1, RunEvent.setpoint 297,
         RunEvent.endReached] by
      rw [run_events]
      simp only [gen_300_298]
      rw [run_events]
      simp [gen_step_zero, run_events]]
    rfl
  · rw [hend.2, gen_step_zero]

/-- C9: a block any of whose `start`/`stop`/`step` fields is non-numeric or
missing expands to the empty list, and the run loop emits the skip warning
for it and proceeds with the remaining blocks — an invalid block is never
fatal to the run. -/
theorem c9_invalid_block_never_fatal (b : TempBlock) (rest : List TempBlock) (i : ℕ)
    (h : b.start = none ∨ b.stop = none ∨ b.step = none) :
    generate_temps_for_block b = [] ∧
    run_events i (b :: rest) =
      RunEvent.blockChanged i :: RunEvent.skipBlock i :: run_events (i + 1) rest := by
  have hgen : generate_temps_for_block b = [] := by
    rcases b with ⟨bs, bo, bst, be⟩
    rcases h with h | h | h
    · dsimp only at h
      subst h
      rfl
    · dsimp only at h
      subst h
      rcases bs with - | x
      · rfl
      · rfl
    · dsimp only at h
      subst h
      rcases bs with - | x
      · rfl
      · rcases bo with - | y
        · rfl
        · rfl
  refine ⟨hgen, ?_⟩
  rw [run_events]
  simp [hgen]

/-- C9 witness: a block with a missing `start` is skipped with a warning and
the run continues: the following valid block is still measured (setpoint 5),
so the invalid block was not fatal. -/
theorem c9_witness :
    generate_temps_for_block ⟨none, some 1, some 1, false⟩ = [] ∧
    run_events 0 [⟨none, some 1, some 1, false⟩, ⟨some 5, some 5, some 0, false⟩] =
      RunEvent.blockChanged 0 :: RunEvent.skipBlock 0 ::
        run_events 1 [⟨some 5, some 5, some 0, false⟩] ∧
    run_setpoints [⟨none, some 1, some 1, false⟩, ⟨some 5, some 5, some 0, false⟩] = [5] := by
  have h := c9_invalid_block_never_fatal ⟨none, some 1, some 1, false⟩
    [⟨some 5, some 5, some 0, false⟩] 0 (Or.inl rfl)
  refine ⟨h.1, h.2, ?_⟩
  rw [run_setpoints, h.2]
  rw [show run_events 1 [(⟨some 5, some 5, some 0, false⟩ : TempBlock)] =
      [RunEvent.blockChanged 1, RunEvent.setpoint 5] by
    rw [run_events]
    simp [gen_step_zero, run_events]]
  rfl

/-- One entry of a PIDRAMP lookup table: an inclusive `[min,max]`
target-temperature range and a payload (a ramp rate, a `(P, I)` pair, a
range label, or a tolerance). -/
structure RangeEntry (α : Type) where
  min : ℚ
  max : ℚ
  payload : α
deriving DecidableEq, Repr

/-- Embedding of the shared first-match loop of `set_sample_ramp`,
`set_chamber_ramp`, `set_sample_pid`, `set_chamber_pid`,
`set_sample_range`, `set_chamber_range` and `_tolerance`
(`measure_core.py`): scan the table in declaration order and take the first
entry with `entry["min"] <= target <= entry["max"]` (each loop `break`s
after its first hit). -/
def firstMatch {α : Type} (target : ℚ) : List (RangeEntry α) → Option α
  | [] => none
  | e :: rest =>
    if e.min ≤ target ∧ target ≤ e.max then some e.payload
    else firstMatch target rest

/-- Ramp selected by `set_sample_ramp` (`measure_core.py` lines 70-84):
`ramp_override` wins when given, otherwise the first matching `sample_ramp`
entry, defaulting to the fixed `ramp = 1` when no entry matches. -/
def set_sample_ramp_value (tbl : List (RangeEntry ℚ)) (target : ℚ)
    (ramp_override : Option ℚ) : ℚ :=
  match ramp_override with
  | some r => r
  | none => (firstMatch target tbl).getD 1

/-- Tolerance selected by `KelvinionController._tolerance`
(`measure_core.py` lines 231-235): the first matching `tolerance_ranges`
entry, defaulting to the fixed 0.1 when no entry matches. -/
def tolerance_value (tbl : List (RangeEntry ℚ)) (target : ℚ) : ℚ :=
  (firstMatch target tbl).getD (1/10)

/-- PID pair selected by `set_sample_pid` (`measure_core.py` lines
101-112): the first matching entry's `(P, I)`; `none` when no entry matches
(the loop then performs no write at all). -/
def sample_pid_value (tbl : List (RangeEntry (ℚ × ℚ))) (target : ℚ) :
    Option (ℚ × ℚ) :=
  firstMatch target tbl

/-- Heater-range label selected by `set_sample_range` (`measure_core.py`
lines 139-144); `none` when no entry matches. -/
def sample_range_value (tbl : List (RangeEntry String)) (target : ℚ) :
    Option String :=
  firstMatch target tbl

lemma firstMatch_of_first {α : Type} (target : ℚ) :
    ∀ (tbl : List (RangeEntry α)) (i : ℕ) (e : RangeEntry α),
      tbl[i]? = some e → (e.min ≤ target ∧ target ≤ e.max) →
      (∀ j, j < i → ∀ e', tbl[j]? = some e' →
        ¬(e'.min ≤ target ∧ target ≤ e'.max)) →
      firstMatch target tbl = some e.payload := by
  intro tbl
  induction tbl with
  | nil => intro i e hi; simp at hi
  | cons hd tl ih =>
    intro i e hi hm hbefore
    rcases i with - | j
    · simp at hi
      subst hi
      rw [firstMatch, if_pos hm]
    · have hhd : ¬(hd.min ≤ target ∧ target ≤ hd.max) :=
        hbefore 0 (by omega) hd (by simp)
      rw [firstMatch, if_neg hhd]
      exact ih j e (by simpa using hi) hm
        (fun k hk e' hk' => hbefore (k + 1) (by omega) e' (by simpa using hk'))

lemma firstMatch_of_no_match {α : Type} (target : ℚ) :
    ∀ tbl : List (RangeEntry α),
      (∀ e ∈ tbl, ¬(e.min ≤ target ∧ target ≤ e.max)) →
      firstMatch target tbl = none := by
  intro tbl
  induction tbl with
  | nil => intro _; rfl
  | cons hd tl ih =>
    intro h
    rw [firstMatch, if_neg (h hd (by simp))]
    exact ih (fun e he => h e (by simp [he]))

/-- C4: each range-keyed lookup (ramp, PID, heater range, tolerance)
returns the payload of the first entry in declaration order whose inclusive
`[min,max]` interval contains the target — with overlapping ranges the
earlier entry wins — and when no entry matches, the ramp lookup falls back
to the fixed default 1 and the tolerance lookup to the fixed default 0.1. -/
theorem c4_first_match_lookup :
    (∀ (α : Type) (tbl : List (RangeEntry α)) (target : ℚ) (i : ℕ) (e : RangeEntry α),
      tbl[i]? = some e → (e.min ≤ target ∧ target ≤ e.max) →
      (∀ j, j < i → ∀ e', tbl[j]? = some e' →
        ¬(e'.min ≤ target ∧ target ≤ e'.max)) →
      firstMatch target tbl = some e.payload) ∧
    (∀ (tbl : List (RangeEntry ℚ)) (target : ℚ) (i : ℕ) (e : RangeEntry ℚ),
      tbl[i]? = some e → (e.min ≤ target ∧ target ≤ e.max) →
      (∀ j, j < i → ∀ e', tbl[j]? = some e' →
        ¬(e'.min ≤ target ∧ target ≤ e'.max)) →
      set_sample_ramp_value tbl target none = e.payload ∧
      tolerance_value tbl target = e.payload) ∧
    (∀ (tbl : List (RangeEntry (ℚ × ℚ))) (target : ℚ) (i : ℕ) (e : RangeEntry (ℚ × ℚ)),
      tbl[i]? = some e → (e.min ≤ target ∧ target ≤ e.max) →
      (∀ j, j < i → ∀ e', tbl[j]? = some e' →
        ¬(e'.min ≤ target ∧ target ≤ e'.max)) →
      sample_pid_value tbl target = some e.payload) ∧
    (∀ (tbl : List (RangeEntry String)) (target : ℚ) (i : ℕ) (e : RangeEntry String),
      tbl[i]? = some e → (e.min ≤ target ∧ target ≤ e.max) →
      (∀ j, j < i → ∀ e', tbl[j]? = some e' →
        ¬(e'.min ≤ target ∧ target ≤ e'.max)) →
      sample_range_value tbl target = some e.payload) ∧
    (∀ (tbl : List (RangeEntry ℚ)) (target : ℚ),
      (∀ e ∈ tbl, ¬(e.min ≤ target ∧ target ≤ e.max)) →
      set_sample_ramp_value tbl target none = 1 ∧
      tolerance_value tbl target = 1/10) := by
  refine ⟨?_, ?_, ?_, ?_, ?_⟩
  · intro α tbl target i e hi hm hb
    exact firstMatch_of_first target tbl i e hi hm hb
  · intro tbl target i e hi hm hb
    have h := firstMatch_of_first target tbl i e hi hm hb
    exact ⟨by simp [set_sample_ramp_value, h], by simp [tolerance_value, h]⟩
  · intro tbl target i e hi hm hb
    exact firstMatch_of_first target tbl i e hi hm hb
  · intro tbl target i e hi hm hb
    exact firstMatch_of_first target tbl i e hi hm hb
  · intro tbl target h
    have hn := firstMatch_of_no_match target tbl h
    exact ⟨by simp [set_sample_ramp_value, hn], by simp [tolerance_value, hn]⟩

/-- C4 witness: with deliberately overlapping tables (target 150 lies in
both `[0,400]` and `[100,200]`) every lookup returns the earlier entry's
payload, and with a non-matching table (target 500) the ramp lookup falls
back to 1 and the tolerance lookup to 0.1. -/
theorem c4_witness :
    set_sample_ramp_value [⟨0, 400, 2⟩, ⟨100, 200, 5⟩] 150 none = 2 ∧
    tolerance_value [⟨0, 400, 1/2⟩, ⟨100, 200, 1/4⟩] 150 = 1/2 ∧
    sample_pid_value [⟨0, 400, (50, 20)⟩, ⟨100, 200, (9, 9)⟩] 150 = some (50, 20) ∧
    sample_range_value [⟨0, 400, "HIGH"⟩, ⟨100, 200, "MID"⟩] 150 = some "HIGH" ∧
    set_sample_ramp_value [⟨0, 100, 7⟩] 500 none = 1 ∧
    tolerance_value [⟨0, 100, 7⟩] 500 = 1/10 := by
  have hvac : ∀ (α : Type) (tbl : List (RangeEntry α)), ∀ j, j < 0 →
      ∀ e' : RangeEntry α, tbl[j]? = some e' →
        ¬(e'.min ≤ (150:ℚ) ∧ (150:ℚ) ≤ e'.max) :=
    fun α tbl j hj => absurd hj (by omega)
  have hnom : ∀ e ∈ ([⟨0, 100, 7⟩] : List (RangeEntry ℚ)),
      ¬(e.min ≤ (500:ℚ) ∧ (500:ℚ) ≤ e.max) := by
    intro e he
    rw [List.mem_singleton] at he
    subst he
    norm_num
  refine ⟨?_, ?_, ?_, ?_, ?_, ?_⟩
  · exact (c4_first_match_lookup.2.1 [⟨0, 400, 2⟩, ⟨100, 200, 5⟩] 150 0 ⟨0, 400, 2⟩
      rfl ⟨by norm_num, by norm_num⟩ (hvac ℚ _)).1
  · exact (c4_first_match_lookup.2.1 [⟨0, 400, 1/2⟩, ⟨100, 200, 1/4⟩] 150 0 ⟨0, 400, 1/2⟩
      rfl ⟨by norm_num, by norm_num⟩ (hvac ℚ _)).2
  · exact c4_first_match_lookup.2.2.1 [⟨0, 400, (50, 20)⟩, ⟨100, 200, (9, 9)⟩] 150 0
      ⟨0, 400, (50, 20)⟩ rfl ⟨by norm_num, by norm_num⟩ (hvac (ℚ × ℚ) _)
  · exact c4_first_match_lookup.2.2.2.1 [⟨0, 400, "HIGH"⟩, ⟨100, 200, "MID"⟩] 150 0
      ⟨0, 400, "HIGH"⟩ rfl ⟨by norm_num, by norm_num⟩ (hvac String _)
  · exact (c4_first_match_lookup.2.2.2.2 [⟨0, 100, 7⟩] 500 hnom).1
  · exact (c4_first_match_lookup.2.2.2.2 [⟨0, 100, 7⟩] 500 hnom).2

/-- Wire commands sent to the Kelvinion controller by `set_temperature` and
its helpers, abstracting the bracketed ASCII syntax: `setp loop t` is
`[SET:SETP:loop:tK]`, `rampCmd loop r` is `[SET:RAMP:loop:r]`,
`pidKP`/`pidKI`/`pidKD` are `[SET:PID:loop:KP|KI|KD:v]`, and
`rangeCmd loop s` is `[SET:RANGE:loop:s]`. -/
inductive KCmd
  | setp (loop : Char) (t : ℚ)
  | rampCmd (loop : Char) (r : ℚ)
  | pidKP (loop : Char) (v : ℚ)
  | pidKI (loop : Char) (v : ℚ)
  | pidKD (loop : Char) (v : ℚ)
  | rangeCmd (loop : Char) (s : String)
deriving DecidableEq, Repr

/-- One hardware write together with whether the controller's exclusive
`_lock` was held while it was issued: `_safe_write` and writes inside a
`with self._lock:` block are locked, a bare `self.inst.write(...)` is
not. -/
structure WriteEvent where
  cmd : KCmd
  locked : Bool
deriving DecidableEq, Repr

/-- Writes issued by `set_sample_ramp` (`measure_core.py` lines 70-84): one
ramp command through `_safe_write` (locked). -/
def set_sample_ramp_writes (tbl : List (RangeEntry ℚ)) (target : ℚ)
    (ramp_override : Option ℚ) : List WriteEvent :=
  [⟨.rampCmd 'A' (set_sample_ramp_value tbl target ramp_override), true⟩]

/-- Writes issued by `set_sample_pid` (`measure_core.py` lines 101-112):
when an entry matches, the three PID writes KP, KI, KD are all issued
inside one `with self._lock:` block (locked, as one group); with no match
nothing is written. -/
def set_sample_pid_writes (tbl : List (RangeEntry (ℚ × ℚ))) (target : ℚ) :
    List WriteEvent :=
  match sample_pid_value tbl target with
  | some pi => [⟨.pidKP 'A' pi.1, true⟩, ⟨.pidKI 'A' pi.2, true⟩, ⟨.pidKD 'A' 0, true⟩]
  | none => []

/-- Writes issued by `set_sample_range` (`measure_core.py` lines 139-144):
when an entry matches, the range command is issued with a bare
`self.inst.write(...)` — NOT through `_safe_write`, so without the lock. -/
def set_sample_range_writes (tbl : List (RangeEntry String)) (target : ℚ) :
    List WriteEvent :=
  match sample_range_value tbl target with
  | some r => [⟨.rangeCmd 'A' r, false⟩]
  | none => []

/-- The sample-loop tables of the PIDRAMP configuration used by
`set_temperature(target, 'A')`. -/
structure PidRampA where
  sample_ramp : List (RangeEntry ℚ)
  sample_pid : List (RangeEntry (ℚ × ℚ))
  sample_range : List (RangeEntry String)
deriving DecidableEq, Repr

/-- Writes issued by `set_temperature(target, 'A', ramp_override)`
(`measure_core.py` lines 154-165): the setpoint write is a bare
`self.inst.write(f"[SET:SETP:A:...K]")` — issued WITHOUT the lock — then
the locked ramp write, the locked PID group, and the unlocked range write.
(The `loop == 'B'` branch is the exact mirror with the chamber tables.) -/
def set_temperature_writes (cfg : PidRampA) (target : ℚ)
    (ramp_override : Option ℚ) : List WriteEvent :=
  ⟨.setp 'A' target, false⟩ ::
    (set_sample_ramp_writes cfg.sample_ramp target ramp_override ++
     set_sample_pid_writes cfg.sample_pid target ++
     set_sample_range_writes cfg.sample_range target)

/-- C7 (code bug): with a representative PIDRAMP table and target 300 K,
`set_temperature` issues its setpoint write and its range write WITHOUT
holding the controller's exclusive lock (bare `inst.write`, `measure_core.py`
lines 159 and 142), while only the ramp and PID writes are locked — exactly
2 of the 6 writes are unlocked, contradicting the claim that every write of
`set_temperature` is performed under the lock (and the code's own comment
that `_lock` serializes all instrument access). -/
theorem c7_unlocked_setpoint_and_range_writes :
    set_temperature_writes
        ⟨[⟨0, 400, 2⟩], [⟨0, 400, (50, 20)⟩], [⟨0, 400, "HIGH"⟩]⟩ 300 none =
      [⟨.setp 'A' 300, false⟩, ⟨.rampCmd 'A' 2, true⟩, ⟨.pidKP 'A' 50, true⟩,
       ⟨.pidKI 'A' 20, true⟩, ⟨.pidKD 'A' 0, true⟩, ⟨.rangeCmd 'A' "HIGH", false⟩] ∧
    ((set_temperature_writes
        ⟨[⟨0, 400, 2⟩], [⟨0, 400, (50, 20)⟩], [⟨0, 400, "HIGH"⟩]⟩ 300 none).filter
      (fun e => !e.locked)).length = 2 := by
  have hramp : set_sample_ramp_value [⟨0, 400, 2⟩] 300 none = 2 := by
    simp only [set_sample_ramp_value]
    rw [firstMatch, if_pos ⟨by norm_num, by norm_num⟩]
    rfl
  have hpid : sample_pid_value [⟨0, 400, (50, 20)⟩] 300 = some (50, 20) := by
    rw [sample_pid_value, firstMatch, if_pos ⟨by norm_num, by norm_num⟩]
  have hrange : sample_range_value [⟨0, 400, "HIGH"⟩] 300 = some "HIGH" := by
    rw [sample_range_value, firstMatch, if_pos ⟨by norm_num, by norm_num⟩]
  have hall : set_temperature_writes
      ⟨[⟨0, 400, 2⟩], [⟨0, 400, (50, 20)⟩], [⟨0, 400, "HIGH"⟩]⟩ 300 none =
      [⟨.setp 'A' 300, false⟩, ⟨.rampCmd 'A' 2, true⟩, ⟨.pidKP 'A' 50, true⟩,
       ⟨.pidKI 'A' 20, true⟩, ⟨.pidKD 'A' 0, true⟩, ⟨.rangeCmd 'A' "HIGH", false⟩] := by
    rw [set_temperature_writes, set_sample_ramp_writes, hramp,
      set_sample_pid_writes, hpid, set_sample_range_writes, hrange]
    rfl
  refine ⟨hall, ?_⟩
  rw [hall]
  rfl

/-- Abstract step-outcome environment for one `measure_single_channel` call
(`measure_core.py` lines 513-562).  `current_parse = none` models
`float(channel_config['current'])` raising (non-numeric or missing key);
`pins` is `channel_config.get('pins', [])`; `connect_raises` models
`self.matrix.connect(pins)` raising (it always raises when the matrix
handle is `None`, i.e. when `matrix_present` is false); `delta_raises`
models `self.k6221.delta_measure(...)` raising (always when the source
meter handle is `None`); `delta_voltage` is the voltage it returns on
success. -/
structure ChannelEnv where
  current_parse : Option ℚ
  pins : List ℕ
  matrix_present : Bool
  connect_raises : Bool
  k6221_present : Bool
  delta_raises : Bool
  delta_voltage : ℚ

/-- Observable outcome of one `measure_single_channel` call: the returned
resistance, whether the `SOURCE:SWEEP:ABORT` recovery write was attempted
(the except-branch attempts it exactly when `self.k6221` is truthy), and
whether `matrix.open_all()` was attempted (the finally-block attempts it
exactly when `self.matrix` is truthy).  Both recovery calls are themselves
wrapped in try/except, hence "attempted". -/
structure ChannelOutcome where
  result : PFloat
  abort_attempted : Bool
  open_all_attempted : Bool
deriving DecidableEq, Repr

/-- Embedding of `MeasurementSystem.measure_single_channel`
(`measure_core.py` lines 513-562): parse the current (raise → except branch:
abort attempted, NaN returned); empty pins → early NaN return with no
abort; `matrix.connect` or `delta_measure` raising → except branch; on
success, resistance is `inf` when `|current| < 1e-15`, else
`voltage / current`.  The finally-block outcome `open_all_attempted` equals
`matrix_present` on every path. -/
def measure_single_channel (env : ChannelEnv) : ChannelOutcome :=
  match env.current_parse with
  | none => ⟨.nan, env.k6221_present, env.matrix_present⟩
  | some current =>
    if env.pins.isEmpty then ⟨.nan, false, env.matrix_present⟩
    else if !env.matrix_present || env.connect_raises then
      ⟨.nan, env.k6221_present, env.matrix_present⟩
    else if !env.k6221_present || env.delta_raises then
      ⟨.nan, env.k6221_present, env.matrix_present⟩
    else if |current| < 1 / 1000000000000000 then
      ⟨.inf, false, env.matrix_present⟩
    else
      ⟨.val (env.delta_voltage / current), false, env.matrix_present⟩

/-- C5: `measure_single_channel` returns `voltage / current` on success,
returns `inf` instead of dividing when `|current| < 1e-15`, returns `nan`
with a best-effort abort (attempted iff the source meter handle is present)
whenever any step raises, and on every path — success or failure — the
switch matrix `open_all` cleanup is attempted whenever the matrix handle is
present. -/
theorem c5_measure_outcomes (env : ChannelEnv) :
    (∀ c : ℚ, env.current_parse = some c → env.pins ≠ [] →
      env.matrix_present = true → env.connect_raises = false →
      env.k6221_present = true → env.delta_raises = false →
      ¬(|c| < 1 / 1000000000000000) →
      measure_single_channel env =
        ⟨.val (env.delta_voltage / c), false, true⟩) ∧
    (∀ c : ℚ, env.current_parse = some c → env.pins ≠ [] →
      env.matrix_present = true → env.connect_raises = false →
      env.k6221_present = true → env.delta_raises = false →
      |c| < 1 / 1000000000000000 →
      measure_single_channel env = ⟨.inf, false, true⟩) ∧
    (env.current_parse = none →
      measure_single_channel env =
        ⟨.nan, env.k6221_present, env.matrix_present⟩) ∧
    (∀ c : ℚ, env.current_parse = some c → env.pins ≠ [] →
      (env.matrix_present = false ∨ env.connect_raises = true ∨
       env.k6221_present = false ∨ env.delta_raises = true) →
      (measure_single_channel env).result = .nan ∧
      (measure_single_channel env).abort_attempted = env.k6221_present) ∧
    (measure_single_channel env).open_all_attempted = env.matrix_present := by
  refine ⟨?_, ?_, ?_, ?_, ?_⟩
  · intro c hc hpins hm hcr hk hdr hcur
    simp [measure_single_channel, hc, hm, hcr, hk, hdr, hcur,
      List.isEmpty_iff, hpins]
    rw [← one_div]
    exact le_of_not_lt hcur
  · intro c hc hpins hm hcr hk hdr hcur
    simp [measure_single_channel, hc, hm, hcr, hk, hdr, hcur,
      List.isEmpty_iff, hpins]
    rwa [← one_div]
  · intro hc
    simp [measure_single_channel, hc]
  · intro c hc hpins hfail
    have hres : measure_single_channel env =
        ⟨.nan, env.k6221_present, env.matrix_present⟩ := by
      rcases hfail with hf | hf | hf | hf
      · simp [measure_single_channel, hc, hf, List.isEmpty_iff, hpins]
      · simp [measure_single_channel, hc, hf, List.isEmpty_iff, hpins]
      · rcases hm : env.matrix_present with - | -
        · simp [measure_single_channel, hc, hm, List.isEmpty_iff, hpins]
        · rcases hcr : env.connect_raises with - | -
          · simp [measure_single_channel, hc, hm, hcr, hf, List.isEmpty_iff, hpins]
          · simp [measure_single_channel, hc, hm, hcr, List.isEmpty_iff, hpins]
      · rcases hm : env.matrix_present with - | -
        · simp [measure_single_channel, hc, hm, List.isEmpty_iff, hpins]
        · rcases hcr : env.connect_raises with - | -
          · simp [measure_single_channel, hc, hm, hcr, hf, List.isEmpty_iff, hpins]
          · simp [measure_single_channel, hc, hm, hcr, List.isEmpty_iff, hpins]
    rw [hres]
    exact ⟨rfl, rfl⟩
  · rcases hc : env.current_parse with - | c
    · simp [measure_single_channel, hc]
    · simp only [measure_single_channel, hc]
      split
      · rfl
      · split
        · rfl
        · split
          · rfl
          · split
            · rfl
            · rfl

/-- C5 witness: concrete instantiations — a successful measurement of 6 V
at 2 A gives 3 Ω with the cleanup attempted; a 1e-16 A current gives `inf`
without dividing; a raising `delta_measure` gives `nan` with the abort and
the cleanup both attempted. -/
theorem c5_witness :
    measure_single_channel ⟨some 2, [1, 2, 3, 4], true, false, true, false, 6⟩ =
      ⟨.val 3, false, true⟩ ∧
    measure_single_channel
        ⟨some (1/10000000000000000), [1, 2, 3, 4], true, false, true, false, 6⟩ =
      ⟨.inf, false, true⟩ ∧
    ((measure_single_channel ⟨some 2, [1, 2, 3, 4], true, false, true, true, 6⟩).result
        = .nan ∧
      (measure_single_channel ⟨some 2, [1, 2, 3, 4], true, false, true, true, 6⟩).abort_attempted
        = true) ∧
    (measure_single_channel ⟨some 2, [1, 2, 3, 4], true, false, true, true, 6⟩).open_all_attempted
      = true := by
  refine ⟨?_, ?_, ?_, ?_⟩
  · have h := (c5_measure_outcomes ⟨some 2, [1, 2, 3, 4], true, false, true, false, 6⟩).1
      2 rfl (by simp) rfl rfl rfl rfl (by norm_num)
    rw [h]
    norm_num
  · exact (c5_measure_outcomes
        ⟨some (1/10000000000000000), [1, 2, 3, 4], true, false, true, false, 6⟩).2.1
      (1/10000000000000000) rfl (by simp) rfl rfl rfl rfl
      (by rw [abs_of_pos (by norm_num)]; norm_num)
  · exact (c5_measure_outcomes ⟨some 2, [1, 2, 3, 4], true, false, true, true, 6⟩).2.2.2.1
      2 rfl (by simp) (Or.inr (Or.inr (Or.inr rfl)))
  · exact (c5_measure_outcomes ⟨some 2, [1, 2, 3, 4], true, false, true, true, 6⟩).2.2.2.2

/-- Lexicographic code-point comparison of char lists, the order Python's
`sorted` uses on strings. -/
def charListLe : List Char → List Char → Bool
  | [], _ => true
  | _ :: _, [] => false
  | x :: xs, y :: ys => if x = y then charListLe xs ys else decide (x < y)

/-- Python string `<=` (lexicographic by code point). -/
def str_le (a b : String) : Bool :=
  charListLe a.data b.data

/-- Insertion step of a stable sort equivalent to Python's `sorted` on the
(distinct) channel names. -/
def insertName (s : String) : List String → List String
  | [] => [s]
  | x :: xs => if str_le s x then s :: x :: xs else x :: insertName s xs

/-- Model of Python's `sorted` on channel-name lists (insertion sort; the
names are distinct so any stable comparison sort agrees). -/
def sortNames : List String → List String
  | [] => []
  | x :: xs => insertName x (sortNames xs)

/-- Embedding of `MeasurementSystem.get_csv_header` (`measure_core.py`
lines 440-446): `["Timestamp", "Temperature[K]"]` followed by
`Resistance_<name>[Ohm]` for every channel name in SORTED order.  The
`channels` argument is the channels dict as an ordered association list
(insertion order) of name and enabled flag. -/
def get_csv_header (channels : List (String × Bool)) : List String :=
  "Timestamp" :: "Temperature[K]" ::
    (sortNames (channels.map Prod.fst)).map (fun n => "Resistance_" ++ n ++ "[Ohm]")

/-- Embedding of `AppController._write_data_to_file` (`controller.py` lines
307-326): one record is the timestamp, the temperature rendered by the
`%.6e` formatter `fmt`, then one field per channel iterating
`self.model.channels.keys()` in dict INSERTION order (not sorted): the
formatted resistance when the channel was measured (`res` returns a value)
and is enabled, else the fixed sentinel token `XXXXXXE0`. -/
def write_data_row (fmt : ℚ → String) (timestamp : String) (temp : ℚ)
    (channels : List (String × Bool)) (res : String → Option ℚ) : List String :=
  timestamp :: fmt temp ::
    channels.map (fun ch =>
      match res ch.1, ch.2 with
      | some r, true => fmt r
      | _, _ => "XXXXXXE0")

/-- C6 (code bug): with the channels dict in insertion order
`[CH2, CH1]` (e.g. after `update_channels` appended a new channel) and
measured resistances CH2 = 7 Ω, CH1 = 5 Ω, the generated header lists the
resistance columns in sorted order CH1, CH2 while the data record lists the
fields in dict order — `fmt 7` (CH2's value) lands under the
`Resistance_CH1[Ohm]` column.  The record is thus NOT in sorted
channel-name order and does not match the header, contrary to the claim;
the sentinel/timestamp/scientific-notation structure itself is as
claimed. -/
theorem c6_row_header_order_mismatch (fmt : ℚ → String) (ts : String) :
    get_csv_header [("CH2", true), ("CH1", true)] =
      ["Timestamp", "Temperature[K]", "Resistance_CH1[Ohm]", "Resistance_CH2[Ohm]"] ∧
    write_data_row fmt ts 1 [("CH2", true), ("CH1", true)]
        (fun n => if n = "CH2" then some 7 else if n = "CH1" then some 5 else none) =
      [ts, fmt 1, fmt 7, fmt 5] ∧
    write_data_row fmt ts 1 [("CH2", true), ("CH1", false)]
        (fun n => if n = "CH2" then some 7 else none) =
      [ts, fmt 1, fmt 7, "XXXXXXE0"] := by
  refine ⟨?_, ?_, ?_⟩
  · rfl
  · rfl
  · rfl

/-- Embedding of `interruptible_sleep(total, checker)` (`measure_core.py`
lines 13-20) in discrete 0.2 s slices: before each slice the checker (when
present) is consulted at the current time; the result is the time when the
call returns together with `true` for a completed sleep and `false` for an
interrupted one.  A call without a checker can never be interrupted. -/
def isleep (checker : Option (ℕ → Bool)) : ℕ → ℕ → ℕ × Bool
  | 0, t => (t, true)
  | n + 1, t =>
    match checker with
    | some c => if c t then isleep checker n (t + 1) else (t, false)
    | none => isleep checker n (t + 1)

lemma isleep_threshold (tc : ℕ) : ∀ n t : ℕ,
    isleep (some (fun s => decide (s < tc))) n t =
      if t + n ≤ tc ∨ n = 0 then (t + n, true) else (max t tc, false) := by
  intro n
  induction n with
  | zero => intro t; simp [isleep]
  | succ m ih =>
    intro t
    rw [isleep]
    by_cases h : t < tc
    · rw [if_pos (by simpa using h)]
      rw [ih (t + 1)]
      by_cases h1 : t + 1 + m ≤ tc ∨ m = 0
      · by_cases h2 : t + (m + 1) ≤ tc ∨ m + 1 = 0
        · rw [if_pos h1, if_pos h2]
          rw [show t + 1 + m = t + (m + 1) by omega]
        · exfalso
          rcases h1 with h1 | h1
          · exact h2 (Or.inl (by omega))
          · exact h2 (Or.inl (by omega))
      · rw [if_neg h1, if_neg (by
          intro hx
          rcases hx with hx | hx
          · exact h1 (Or.inl (by omega))
          · omega)]
        rw [Nat.max_eq_right (by omega), Nat.max_eq_right (by omega)]
    · rw [if_neg (by simpa using h)]
      rw [if_neg (by
        intro hx
        rcases hx with hx | hx
        · omega
        · omega)]
      rw [Nat.max_eq_left (by omega)]

/-- Outcome of a timed run of `wait_for_stable`: `aborted t reads` — the
method returned at time `t` because of cancellation, after issuing hardware
temperature reads at the listed times; `stabilized t reads` — it returned
normally; `fuelOut` — the supplied loop-iteration fuel ran out (the
source's loops are unbounded). -/
inductive WaitOutcome
  | aborted (t : ℕ) (reads : List ℕ)
  | stabilized (t : ℕ) (reads : List ℕ)
  | fuelOut
deriving DecidableEq, Repr

/-- Prepend a hardware-read timestamp to an outcome's read list. -/
def WaitOutcome.addRead (r : ℕ) : WaitOutcome → WaitOutcome
  | .aborted t rs => .aborted t (r :: rs)
  | .stabilized t rs => .stabilized t (r :: rs)
  | .fuelOut => .fuelOut

/-- Embedding of the confirmation loop of `wait_for_stable`
(`measure_core.py` lines 254-268) in 0.2 s slices: while `valid_count < 6`,
consult the cancellation predicate (abort), run the 0.8 s settle sleep —
`interruptible_sleep(0.8)` is called WITHOUT the checker, so those 4 slices
are uninterruptible — read the sample temperature (instantaneous, at time
`t + 4`), update the consecutive counter, then run the interruptible 1 s
(5-slice) sleep, aborting when it is interrupted.  `reading` gives the
sample reading at each time, `running` the cancellation predicate. -/
def confirm_timed (target tol : ℚ) (reading : ℕ → PFloat) (running : ℕ → Bool) :
    ℕ → ℕ → ℕ → WaitOutcome
  | 0, _, _ => .fuelOut
  | f + 1, count, t =>
    if 6 ≤ count then .stabilized t []
    else if !running t then .aborted t []
    else
      let c := if stable_check target tol (reading (t + 4)) then count + 1 else 0
      match isleep (some running) 5 (t + 4) with
      | (t2, false) => .aborted t2 [t + 4]
      | (t2, true) =>
        (confirm_timed target tol reading running f c t2).addRead (t + 4)

/-- Embedding of the acquisition loop of `wait_for_stable`
(`measure_core.py` lines 240-252) in 0.2 s slices: consult the cancellation
predicate (abort), run the uninterruptible 0.8 s settle sleep, read the
sample temperature at `t + 4`; on an in-tolerance reading `break` into the
confirmation loop, otherwise run the interruptible 1 s sleep and loop. -/
def wait_timed (target tol : ℚ) (reading : ℕ → PFloat) (running : ℕ → Bool) :
    ℕ → ℕ → WaitOutcome
  | 0, _ => .fuelOut
  | f + 1, t =>
    if !running t then .aborted t []
    else
      if stable_check target tol (reading (t + 4)) then
        (confirm_timed target tol reading running (f + 1) 0 (t + 4)).addRead (t + 4)
      else
        match isleep (some running) 5 (t + 4) with
        | (t2, false) => .aborted t2 [t + 4]
        | (t2, true) => (wait_timed target tol reading running f t2).addRead (t + 4)
lemma confirm_timed_abort (target tol : ℚ) (reading : ℕ → PFloat) (tc : ℕ) :
    ∀ (f count t ta : ℕ) (rs : List ℕ),
      confirm_timed target tol reading (fun s => decide (s < tc)) f count t =
        .aborted ta rs →
      t ≤ ta ∧ ta ≤ max t (tc + 3) ∧
      (tc ≤ t → ta = t ∧ rs = []) ∧
      (∀ r ∈ rs, t + 4 ≤ r ∧ r ≤ ta) ∧
      rs.countP (fun r => decide (tc ≤ r)) ≤ 1 := by
  intro f
  induction f with
  | zero => intro count t ta rs h; simp [confirm_timed] at h
  | succ g ih =>
    intro count t ta rs h
    rw [confirm_timed] at h
    by_cases h6 : 6 ≤ count
    · rw [if_pos h6] at h
      simp at h
    · rw [if_neg h6] at h
      by_cases hrun : tc ≤ t
      · rw [if_pos (by simp; omega)] at h
        injection h with h1 h2
        subst h1
        subst h2
        refine ⟨le_refl t, le_max_left t _, fun _ => ⟨rfl, rfl⟩, ?_, ?_⟩
        · intro r hr
          simp at hr
        · simp
      · rw [if_neg (by simp; omega)] at h
        rw [isleep_threshold tc 5 (t + 4)] at h
        by_cases hP : t + 4 + 5 ≤ tc ∨ (5:ℕ) = 0
        · rw [if_pos hP] at h
          have ht9 : t + 9 ≤ tc := by
            rcases hP with hP | hP
            · omega
            · omega
          dsimp only at h
          rcases hrec : confirm_timed target tol reading (fun s => decide (s < tc)) g
              (if stable_check target tol (reading (t + 4)) then count + 1 else 0)
              (t + 4 + 5) with ⟨t', rs'⟩ | ⟨t', rs'⟩ | -
          all_goals rw [hrec] at h
          · dsimp only [WaitOutcome.addRead] at h
            injection h with h1 h2
            subst h1
            subst h2
            rcases ih _ _ _ _ hrec with ⟨ih1, ih2, ih3, ih4, ih5⟩
            refine ⟨by omega, ?_, by omega, ?_, ?_⟩
            · have hmax : max (t + 4 + 5) (tc + 3) = tc + 3 :=
                Nat.max_eq_right (by omega)
              rw [hmax] at ih2
              exact le_trans ih2 (le_max_right t _)
            · intro r hr
              rcases List.mem_cons.mp hr with hr | hr
              · subst hr
                exact ⟨le_refl _, by omega⟩
              · rcases ih4 r hr with ⟨ha, hb⟩
                exact ⟨by omega, hb⟩
            · rw [List.countP_cons]
              rw [if_neg (by simp; omega : ¬ decide (tc ≤ t + 4) = true)]
              simpa using ih5
          · dsimp only [WaitOutcome.addRead] at h
            exact absurd h (by simp)
          · dsimp only [WaitOutcome.addRead] at h
            exact absurd h (by simp)
        · rw [if_neg hP] at h
          dsimp only at h
          injection h with h1 h2
          subst h1
          subst h2
          have htc : tc ≤ t + 8 := by
            rcases Nat.lt_or_ge (t + 9) (tc + 1) with hx | hx
            · exact absurd (Or.inl (by omega)) hP
            · omega
          refine ⟨?_, ?_, by omega, ?_, ?_⟩
          · exact le_trans (by omega) (le_max_left (t + 4) tc)
          · rcases le_total (t + 4) tc with hm | hm
            · rw [Nat.max_eq_right hm]
              exact le_trans (by omega) (le_max_right t _)
            · rw [Nat.max_eq_left hm]
              exact le_trans (by omega) (le_max_right t _)
          · intro r hr
            rcases List.mem_singleton.mp hr with rfl
            exact ⟨le_refl _, le_max_left _ _⟩
          · simp [List.countP_cons]
            split
            · omega
            · omega

lemma wait_timed_abort (target tol : ℚ) (reading : ℕ → PFloat) (tc : ℕ) :
    ∀ (f t ta : ℕ) (rs : List ℕ),
      wait_timed target tol reading (fun s => decide (s < tc)) f t =
        .aborted ta rs →
      t ≤ ta ∧ ta ≤ max t (tc + 3) ∧
      (tc ≤ t → ta = t ∧ rs = []) ∧
      (∀ r ∈ rs, t + 4 ≤ r ∧ r ≤ ta) ∧
      rs.countP (fun r => decide (tc ≤ r)) ≤ 1 := by
  intro f
  induction f with
  | zero => intro t ta rs h; simp [wait_timed] at h
  | succ g ih =>
    intro t ta rs h
    rw [wait_timed] at h
    by_cases hrun : tc ≤ t
    · rw [if_pos (by simp; omega)] at h
      injection h with h1 h2
      subst h1
      subst h2
      refine ⟨le_refl t, le_max_left t _, fun _ => ⟨rfl, rfl⟩, ?_, ?_⟩
      · intro r hr
        simp at hr
      · simp
    · rw [if_neg (by simp; omega)] at h
      by_cases hsc : stable_check target tol (reading (t + 4)) = true
      · rw [if_pos hsc] at h
        rcases hrec : confirm_timed target tol reading (fun s => decide (s < tc))
            (g + 1) 0 (t + 4) with ⟨t', rs'⟩ | ⟨t', rs'⟩ | -
        all_goals rw [hrec] at h
        · dsimp only [WaitOutcome.addRead] at h
          injection h with h1 h2
          subst h1
          subst h2
          rcases confirm_timed_abort target tol reading tc (g + 1) 0 (t + 4) t' rs' hrec
            with ⟨ih1, ih2, ih3, ih4, ih5⟩
          refine ⟨by omega, ?_, by omega, ?_, ?_⟩
          · have hmax : max (t + 4) (tc + 3) = tc + 3 := Nat.max_eq_right (by omega)
            rw [hmax] at ih2
            exact le_trans ih2 (le_max_right t _)
          · intro r hr
            rcases List.mem_cons.mp hr with hr | hr
            · subst hr
              exact ⟨le_refl _, by omega⟩
            · rcases ih4 r hr with ⟨ha, hb⟩
              exact ⟨by omega, hb⟩
          · rw [List.countP_cons]
            by_cases htc4 : tc ≤ t + 4
            · rcases ih3 htc4 with ⟨-, hnil⟩
              subst hnil
              simp
              split
              · omega
              · omega
            · rw [if_neg (by simp; omega : ¬ decide (tc ≤ t + 4) = true)]
              simpa using ih5
        · dsimp only [WaitOutcome.addRead] at h
          exact absurd h (by simp)
        · dsimp only [WaitOutcome.addRead] at h
          exact absurd h (by simp)
      · rw [if_neg hsc] at h
        rw [isleep_threshold tc 5 (t + 4)] at h
        by_cases hP : t + 4 + 5 ≤ tc ∨ (5:ℕ) = 0
        · rw [if_pos hP] at h
          have ht9 : t + 9 ≤ tc := by
            rcases hP with hP | hP
            · omega
            · omega
          dsimp only at h
          rcases hrec : wait_timed target tol reading (fun s => decide (s < tc)) g
              (t + 4 + 5) with ⟨t', rs'⟩ | ⟨t', rs'⟩ | -
          all_goals rw [hrec] at h
          · dsimp only [WaitOutcome.addRead] at h
            injection h with h1 h2
            subst h1
            subst h2
            rcases ih _ _ _ hrec with ⟨ih1, ih2, ih3, ih4, ih5⟩
            refine ⟨by omega, ?_, by omega, ?_, ?_⟩
            · have hmax : max (t + 4 + 5) (tc + 3) = tc + 3 :=
                Nat.max_eq_right (by omega)
              rw [hmax] at ih2
              exact le_trans ih2 (le_max_right t _)
            · intro r hr
              rcases List.mem_cons.mp hr with hr | hr
              · subst hr
                exact ⟨le_refl _, by omega⟩
              · rcases ih4 r hr with ⟨ha, hb⟩
                exact ⟨by omega, hb⟩
            · rw [List.countP_cons]
              rw [if_neg (by simp; omega : ¬ decide (tc ≤ t + 4) = true)]
              simpa using ih5
          · dsimp only [WaitOutcome.addRead] at h
            exact absurd h (by simp)
          · dsimp only [WaitOutcome.addRead] at h
            exact absurd h (by simp)
        · rw [if_neg hP] at h
          dsimp only at h
          injection h with h1 h2
          subst h1
          subst h2
          have htc : tc ≤ t + 8 := by
            rcases Nat.lt_or_ge (t + 9) (tc + 1) with hx | hx
            · exact absurd (Or.inl (by omega)) hP
            · omega
          refine ⟨?_, ?_, by omega, ?_, ?_⟩
          · exact le_trans (by omega) (le_max_left (t + 4) tc)
          · rcases le_total (t + 4) tc with hm | hm
            · rw [Nat.max_eq_right hm]
              exact le_trans (by omega) (le_max_right t _)
            · rw [Nat.max_eq_left hm]
              exact le_trans (by omega) (le_max_right t _)
          · intro r hr
            rcases List.mem_singleton.mp hr with rfl
            exact ⟨le_refl _, le_max_left _ _⟩
          · simp [List.countP_cons]
            split
            · omega
            · omega

/-- C8 amended: with cancellation becoming (and staying) requested at time
`tc` (in 0.2 s slices), a cancelled `wait_for_stable` returns at most 3
slices (0.6 s) after `max t0 tc` — well within one ~1.8 s (9-slice) polling
interval — all hardware reads it issued happened no later than its return
time, and at most one hardware read is issued at or after the cancellation
time.  (The 0.8 s settle sleep is NOT interruptible — see the
counterexample — but the checks around it still bound the overshoot.) -/
theorem c8_amended_cancellation_bound (target tol : ℚ) (reading : ℕ → PFloat)
    (tc fuel t0 ta : ℕ) (rs : List ℕ)
    (h : wait_timed target tol reading (fun s => decide (s < tc)) fuel t0 =
      .aborted ta rs) :
    t0 ≤ ta ∧ ta ≤ max t0 (tc + 3) ∧ (∀ r ∈ rs, r ≤ ta) ∧
    rs.countP (fun r => decide (tc ≤ r)) ≤ 1 := by
  rcases wait_timed_abort target tol reading tc fuel t0 ta rs h
    with ⟨h1, h2, -, h4, h5⟩
  exact ⟨h1, h2, fun r hr => (h4 r hr).2, h5⟩

/-- C8 counterexample: the 0.8 s settle sleep is `interruptible_sleep(0.8)`
called WITHOUT the checker (`measure_core.py` lines 244 and 259), so it is
not interruptible: it always completes (`isleep none 4` never reports an
interruption), and in a run cancelled at slice 1 (0.2 s) — during the
settle sleep — `wait_for_stable` keeps sleeping, still issues a hardware
read at slice 4 (0.8 s, after the cancellation), and only then returns at
slice 4, not at slice 1 as predicate-interruptible sleeping would give. -/
theorem c8_counterexample :
    isleep none 4 1 = (5, true) ∧
    wait_timed 300 (1/10) (fun _ => PFloat.val 0) (fun s => decide (s < 1)) 1 0 =
      WaitOutcome.aborted 4 [4] := by
  constructor
  · rfl
  · have h2 : decide ((300:ℚ) - 0 < 1/10) = false := by
      rw [decide_eq_false_iff_not]
      norm_num
    have hsc : stable_check 300 (1/10) (PFloat.val 0) = false := by
      show (decide ((0:ℚ) - 300 < 1/10) && decide ((300:ℚ) - 0 < 1/10)) = false
      rw [h2, Bool.and_false]
    show wait_timed 300 (1/10) (fun _ => PFloat.val 0) (fun s => decide (s < 1))
      (0 + 1) 0 = _
    rw [wait_timed]
    rw [if_neg (by simp)]
    rw [if_neg (by rw [hsc]; simp)]
    rw [isleep_threshold 1 5 (0 + 4)]
    rw [if_neg (by
      intro hx
      rcases hx with hx | hx
      · omega
      · omega)]
    dsimp only
    rw [Nat.max_eq_left (by omega)]

/-- C8 witness: a run cancelled at slice 2 (during the settle sleep) aborts
at slice 4 with its single hardware read at slice 4; the amended bound
applies: the return time 4 is at most `max 0 (2+3)`, all reads precede the
return, and at most one read falls after the cancellation. -/
theorem c8_witness :
    wait_timed 300 (1/10) (fun _ => PFloat.val 0) (fun s => decide (s < 2)) 1 0 =
      WaitOutcome.aborted 4 [4] ∧
    (0 ≤ 4 ∧ 4 ≤ max 0 (2 + 3) ∧ (∀ r ∈ ([4] : List ℕ), r ≤ 4) ∧
      ([4] : List ℕ).countP (fun r => decide (2 ≤ r)) ≤ 1) := by
  have h2 : decide ((300:ℚ) - 0 < 1/10) = false := by
    rw [decide_eq_false_iff_not]
    norm_num
  have hsc : stable_check 300 (1/10) (PFloat.val 0) = false := by
    show (decide ((0:ℚ) - 300 < 1/10) && decide ((300:ℚ) - 0 < 1/10)) = false
    rw [h2, Bool.and_false]
  have hrun : wait_timed 300 (1/10) (fun _ => PFloat.val 0)
      (fun s => decide (s < 2)) 1 0 = WaitOutcome.aborted 4 [4] := by
    show wait_timed 300 (1/10) (fun _ => PFloat.val 0) (fun s => decide (s < 2))
      (0 + 1) 0 = _
    rw [wait_timed]
    rw [if_neg (by simp)]
    rw [if_neg (by rw [hsc]; simp)]
    rw [isleep_threshold 2 5 (0 + 4)]
    rw [if_neg (by
      intro hx
      rcases hx with hx | hx
      · omega
      · omega)]
    dsimp only
    rw [Nat.max_eq_left (by omega)]
  exact ⟨hrun, c8_amended_cancellation_bound 300 (1/10) _ 2 1 0 4 [4] hrun⟩
